import Mathlib

/-!
Verification of the NURBS orientation interpolator
(`src/src/nodes/NURBS/NurbsOrientationInterpolator.js`).

The JavaScript node evaluates a NURBS curve at a parameter `u` and returns the
shortest-arc rotation taking the fixed reference direction (0,0,-1) onto a
finite-difference tangent of the curve.  We embed the numeric core over `ℚ`
(JavaScript numbers are IEEE doubles; every finite double is rational, and we
work with exact arithmetic).  Two JS behaviours have no counterpart in a field:

* reading past the end of an array yields `undefined`, and arithmetic on it
  yields `NaN`.  Where the source can hit this we model the read with
  `List.get?` / an explicitly guarded index, and the NaN-contaminated
  continuation as an explicit failure (`EvalResult.thrown`);
* division by zero yields `±Infinity`/`NaN` in JS but `0` in `ℚ`.  No settled
  statement below depends on the value of a division by zero: where a claim is
  about division by zero occurring we state which divisions the code executes.

Functions of this repository that the file under `src/` calls but whose code is
not under `src/` (`NurbsCurve.prototype.findSpan`,
`NurbsCurve.prototype.curvePoint3DH`, `x3dom.fields.SFVec3f` arithmetic,
`x3dom.fields.Quaternion.rotateFromTo`) are modelled from the spec; each such
definition carries a doc comment saying so.
-/

namespace X3D

/-- Modelled from the spec: a 3D point/vector (`x3dom.fields.SFVec3f`, not
under src/).  Component-wise arithmetic. -/
structure Vec3 where
  x : ℚ
  y : ℚ
  z : ℚ
deriving DecidableEq

/-- Modelled from the spec: vector subtraction (`SFVec3f.subtract`). -/
def Vec3.sub (a b : Vec3) : Vec3 := ⟨a.x - b.x, a.y - b.y, a.z - b.z⟩

/-- Modelled from the spec: vector addition (used by the weighted sum). -/
def Vec3.add (a b : Vec3) : Vec3 := ⟨a.x + b.x, a.y + b.y, a.z + b.z⟩

/-- Modelled from the spec: scalar multiple. -/
def Vec3.smul (c : ℚ) (v : Vec3) : Vec3 := ⟨c * v.x, c * v.y, c * v.z⟩

/-- Modelled from the spec: division of a vector by a scalar (the perspective
divide of the rational evaluation). -/
def Vec3.divScalar (v : Vec3) (c : ℚ) : Vec3 := ⟨v.x / c, v.y / c, v.z / c⟩

/-- Modelled from the spec: dot product (angle of the shortest-arc rotation). -/
def Vec3.dot (a b : Vec3) : ℚ := a.x * b.x + a.y * b.y + a.z * b.z

/-- Modelled from the spec: cross product (axis of the shortest-arc rotation). -/
def Vec3.cross (a b : Vec3) : Vec3 :=
  ⟨a.y * b.z - a.z * b.y, a.z * b.x - a.x * b.z, a.x * b.y - a.y * b.x⟩

/-- The mutable node state that `getValue` reads and writes:
`controlPoint` is the linked `X3DCoordinateNode`'s `point` array (`none` when
the SFNode is absent), and `order`, `knot`, `weight` are the node's fields
`this._vf.order`, `this._vf.knot`, `this._vf.weight`.  (`this.points` is
always assigned from the control-point node on entry to `getValue`, so we do
not store it separately.) -/
structure NurbsState where
  controlPoint : Option (List Vec3)
  order : ℕ
  knot : List ℚ
  weight : List ℚ
deriving DecidableEq

/-- The JS errors the evaluator can produce.  `typeError` is what dereferencing
`undefined`/`null` throws; `invalidInput` is the explicit validation error the
spec asks for — the embedding shows the code never raises it. -/
inductive JsError where
  | typeError : JsError
  | invalidInput : JsError
deriving DecidableEq

/-- `this._fractionalShift = 0.01`: relative distance to the adjacent sample. -/
def fractionalShift : ℚ := 1 / 100

/-- `this._downZ = new x3dom.fields.SFVec3f(0, 0, -1)`. -/
def downZ : Vec3 := ⟨0, 0, -1⟩

/-- `createDefaultKnots`, translated loop by loop.  The source builds
`Array(points + order).fill(0)`, then the ramp loop writes index `k` for
`order ≤ k < points` with `(k-1)/(points-1)`, then the tail loop writes index
`k` for `length - order ≤ k < length` (that is `points ≤ k < points + order`)
with `1`.  The two loops touch disjoint index ranges and the tail loop runs
last, so the result is the closed form below (`k - 1` is computed on JS
numbers, hence the subtraction is taken in `ℚ` after the cast). -/
def createDefaultKnots (points order : ℕ) : List ℚ :=
  (List.range (points + order)).map fun k =>
    if points ≤ k then 1
    else if order ≤ k then ((k : ℚ) - 1) / ((points : ℚ) - 1)
    else 0

/-- The indices for which the ramp loop of `createDefaultKnots` executes its
body `knots[k] = (k-1)/(points-1)` — i.e. the iterations that perform a
division by `points - 1`. -/
def rampIndices (points order : ℕ) : List ℕ :=
  (List.range points).filter fun k => order ≤ k

theorem createDefaultKnots_length (points order : ℕ) :
    (createDefaultKnots points order).length = points + order := by
  simp [createDefaultKnots]

theorem createDefaultKnots_getD (points order k : ℕ) (h : k < points + order) :
    (createDefaultKnots points order).getD k 0 =
      if points ≤ k then 1
      else if order ≤ k then ((k : ℚ) - 1) / ((points : ℚ) - 1)
      else 0 := by
  rw [createDefaultKnots, List.getD_eq_getElem?_getD, List.getElem?_map,
    List.getElem?_range h]
  rfl

theorem mem_rampIndices (points order k : ℕ) :
    k ∈ rampIndices points order ↔ order ≤ k ∧ k < points := by
  simp [rampIndices, and_comm]

/-- Modelled from the spec: `findSpan` in the source delegates to
`NurbsCurve.prototype.findSpan`, which is not under src/.  The spec specifies
a linear scan / binary search returning the index `i` with
`knots[i] ≤ u < knots[i+1]`, saturating to the last valid span `n` when `u`
reaches (or exceeds) the upper domain bound.  `findSpanScan u U k` is the
linear scan: the largest index `i < k` with `U[i] ≤ u` (and `0` when there is
none). -/
def findSpanScan (u : ℚ) (U : List ℚ) (k : ℕ) : ℕ :=
  (List.range k).foldl (fun acc i => if U.getD i 0 ≤ u then i else acc) 0

/-- Modelled from the spec: span lookup (see `findSpanScan`).  `n` is the
highest control-point index, `p` the degree (present to mirror the source
signature `findSpan(n, p, u, U)`). -/
def findSpan (n p : ℕ) (u : ℚ) (U : List ℚ) : ℕ :=
  if U.getD (U.length - 1) 0 ≤ u then n else findSpanScan u U (U.length - 1)

theorem findSpanScan_succ (u : ℚ) (U : List ℚ) (k : ℕ) :
    findSpanScan u U (k + 1) =
      if U.getD k 0 ≤ u then k else findSpanScan u U k := by
  unfold findSpanScan
  rw [List.range_succ, List.foldl_append]
  simp

theorem findSpanScan_sat (u : ℚ) (U : List ℚ) (k : ℕ) (h0 : U.getD 0 0 ≤ u) :
    U.getD (findSpanScan u U k) 0 ≤ u := by
  induction k with
  | zero => simpa [findSpanScan] using h0
  | succ k ih =>
      rw [findSpanScan_succ]
      split
      · assumption
      · exact ih

theorem findSpanScan_max (u : ℚ) (U : List ℚ) (k m : ℕ) (hm : m < k)
    (hsat : U.getD m 0 ≤ u) : m ≤ findSpanScan u U k := by
  induction k with
  | zero => omega
  | succ k ih =>
      rw [findSpanScan_succ]
      split
      · omega
      · rcases Nat.lt_succ_iff_lt_or_eq.mp hm with h | h
        · exact ih h
        · subst h; contradiction

theorem findSpanScan_lt (u : ℚ) (U : List ℚ) (k : ℕ) (hk : 0 < k) :
    findSpanScan u U k < k := by
  induction k with
  | zero => omega
  | succ k ih =>
      rw [findSpanScan_succ]
      split
      · omega
      · rcases Nat.eq_zero_or_pos k with h | h
        · subst h; simp [findSpanScan]
        · exact Nat.lt_succ_of_lt (ih h)

/-- `basisFuns` (lines 154–181 of the source), translated statement by
statement.  The JS arrays `left` and `right` are each written exactly once, at
outer iteration `j`: `left[j] = u - U[i+1-j]`, `right[j] = U[i+j] - u`, and
they are only read at iterations `≥ j`; so we model them as functions of the
index (`bfLeft`, `bfRight`).  For indices the source reads, `i + 1 - j` is a
non-negative JS integer whenever `j ≤ i + 1`; the truncated `ℕ` subtraction
agrees with JS on that range (the claims below only evaluate `basisFuns`
where every read is in range). -/
def bfLeft (i : ℕ) (u : ℚ) (U : List ℚ) (j : ℕ) : ℚ := u - U.getD (i + 1 - j) 0

/-- `right[j] = U[i+j] - u` (see `bfLeft`). -/
def bfRight (i : ℕ) (u : ℚ) (U : List ℚ) (j : ℕ) : ℚ := U.getD (i + j) 0 - u

/-- The body of the inner loop of `basisFuns` at inner index `r` (the fold
state is the array `N` together with the running `saved`):
`temp = N[r] / (right[r+1] + left[j-r]); N[r] = saved + right[r+1]*temp;
saved = left[j-r]*temp`. -/
def bfInnerStep (i : ℕ) (u : ℚ) (U : List ℚ) (j : ℕ) (st : List ℚ × ℚ)
    (r : ℕ) : List ℚ × ℚ :=
  let temp := st.1.getD r 0 / (bfRight i u U (r + 1) + bfLeft i u U (j - r))
  (st.1.set r (st.2 + bfRight i u U (r + 1) * temp), bfLeft i u U (j - r) * temp)

/-- One outer iteration of `basisFuns` at depth `j`: run the inner loop for
`r = 0, …, j-1` starting from `saved = 0.0`, then `N[j] = saved`. -/
def bfOuterStep (i : ℕ) (u : ℚ) (U : List ℚ) (N : List ℚ) (j : ℕ) : List ℚ :=
  let res := (List.range j).foldl (bfInnerStep i u U j) (N, 0)
  res.1.set j res.2

/-- `basisFuns(i, u, p, U)`: start from `N[0] = 1.0` and run the outer loop
for `j = 1, …, p`.  In JS the array `N` grows one slot per outer iteration;
we pre-size it to `p+1` slots (initialised `0`, as reading an unwritten slot
never happens: iteration `j` only reads `N[0..j-1]` and then writes `N[j]`). -/
def basisFuns (i : ℕ) (u : ℚ) (p : ℕ) (U : List ℚ) : List ℚ :=
  ((List.range p).map (· + 1)).foldl (bfOuterStep i u U)
    ((List.replicate (p + 1) 0).set 0 1)

/-- The inner loop of the Cox–de Boor triangular recurrence in functional
form: processes the list of current basis values at absolute indices
`r, r+1, …`, threading `saved`; returns the updated values together with the
final `saved`. -/
def cdBoorInnerP (L R : ℕ → ℚ) (j : ℕ) : List ℚ → ℚ → ℕ → List ℚ × ℚ
  | [], saved, _ => ([], saved)
  | a :: ns, saved, r =>
      let temp := a / (R (r + 1) + L (j - r))
      let rest := cdBoorInnerP L R j ns (L (j - r) * temp) (r + 1)
      ((saved + R (r + 1) * temp) :: rest.1, rest.2)

/-- The Cox–de Boor triangular recurrence: depth `0` is `[1]`; depth `j+1`
applies the inner recurrence at depth `j+1` starting from `saved = 0` and
ends with `N[j+1] = saved`. -/
def cdBoor (L R : ℕ → ℚ) : ℕ → List ℚ
  | 0 => [1]
  | j + 1 =>
      let q := cdBoorInnerP L R (j + 1) (cdBoor L R j) 0 0
      q.1 ++ [q.2]

theorem cdBoorInnerP_length (L R : ℕ → ℚ) (j : ℕ) :
    ∀ (N : List ℚ) (s : ℚ) (r : ℕ), (cdBoorInnerP L R j N s r).1.length = N.length
  | [], _, _ => rfl
  | _ :: ns, s, r => by
      simp [cdBoorInnerP, cdBoorInnerP_length L R j ns _ (r + 1)]

theorem cdBoor_length (L R : ℕ → ℚ) (p : ℕ) : (cdBoor L R p).length = p + 1 := by
  induction p with
  | zero => rfl
  | succ p ih => simp [cdBoor, cdBoorInnerP_length, ih]

theorem getD_append_cons (C l : List ℚ) (a : ℚ) :
    (C ++ a :: l).getD C.length 0 = a := by
  induction C with
  | nil => rfl
  | cons c C ih => simpa using ih

theorem set_append_cons (C l : List ℚ) (a v : ℚ) :
    (C ++ a :: l).set C.length v = C ++ v :: l := by
  induction C with
  | nil => rfl
  | cons c C ih => simp [List.set, ih]

theorem set_append_cons_of_eq (C l : List ℚ) (a v : ℚ) (n : ℕ) (h : n = C.length) :
    (C ++ a :: l).set n v = C ++ v :: l := by
  subst h; exact set_append_cons C l a v

/-- The imperative inner loop over absolute indices `C.length, …,
C.length + A.length - 1` acting on the array `C ++ A ++ B` touches exactly the
`A` segment, and computes the functional recurrence on it. -/
theorem inner_bridge (i : ℕ) (u : ℚ) (U : List ℚ) (j : ℕ) :
    ∀ (A C B : List ℚ) (s : ℚ),
      (List.range' C.length A.length).foldl (bfInnerStep i u U j) (C ++ A ++ B, s) =
        (C ++ (cdBoorInnerP (bfLeft i u U) (bfRight i u U) j A s C.length).1 ++ B,
         (cdBoorInnerP (bfLeft i u U) (bfRight i u U) j A s C.length).2)
  | [], C, B, s => by simp [cdBoorInnerP]
  | a :: ns, C, B, s => by
      have hrange : List.range' C.length (a :: ns).length =
          C.length :: List.range' (C.length + 1) ns.length := rfl
      rw [hrange, List.foldl_cons]
      have hget : (C ++ a :: ns ++ B).getD C.length 0 = a := by
        rw [List.append_assoc, List.cons_append, getD_append_cons]
      have hset : ∀ v : ℚ, (C ++ a :: ns ++ B).set C.length v = C ++ v :: ns ++ B := by
        intro v
        rw [List.append_assoc, List.cons_append, set_append_cons,
          List.append_assoc, List.cons_append]
      rw [show bfInnerStep i u U j (C ++ a :: ns ++ B, s) C.length =
            ((C ++ a :: ns ++ B).set C.length
               (s + bfRight i u U (C.length + 1) *
                 ((C ++ a :: ns ++ B).getD C.length 0 /
                   (bfRight i u U (C.length + 1) + bfLeft i u U (j - C.length)))),
             bfLeft i u U (j - C.length) *
               ((C ++ a :: ns ++ B).getD C.length 0 /
                 (bfRight i u U (C.length + 1) + bfLeft i u U (j - C.length)))) from rfl,
        hget, hset]
      have hlen : (C ++ [s + bfRight i u U (C.length + 1) *
          (a / (bfRight i u U (C.length + 1) + bfLeft i u U (j - C.length)))]).length =
          C.length + 1 := by simp
      have ih := inner_bridge i u U j ns
        (C ++ [s + bfRight i u U (C.length + 1) *
          (a / (bfRight i u U (C.length + 1) + bfLeft i u U (j - C.length)))]) B
        (bfLeft i u U (j - C.length) *
          (a / (bfRight i u U (C.length + 1) + bfLeft i u U (j - C.length))))
      rw [hlen] at ih
      rw [show C ++ (s + bfRight i u U (C.length + 1) *
            (a / (bfRight i u U (C.length + 1) + bfLeft i u U (j - C.length)))) :: ns ++ B =
          (C ++ [s + bfRight i u U (C.length + 1) *
            (a / (bfRight i u U (C.length + 1) + bfLeft i u U (j - C.length)))]) ++ ns ++ B by
        simp]
      rw [ih]
      simp [cdBoorInnerP]

/-- After outer iterations `1, …, j` the imperative array holds the depth-`j`
recurrence values followed by the untouched zero padding. -/
theorem outer_bridge (i : ℕ) (u : ℚ) (U : List ℚ) (p : ℕ) :
    ∀ j, j ≤ p →
      ((List.range j).map (· + 1)).foldl (bfOuterStep i u U)
          ((List.replicate (p + 1) 0).set 0 1) =
        cdBoor (bfLeft i u U) (bfRight i u U) j ++ List.replicate (p - j) 0 := by
  intro j
  induction j with
  | zero =>
      intro _
      simp [cdBoor, List.replicate_succ]
  | succ j ih =>
      intro hj
      rw [List.range_succ, List.map_append, List.foldl_append, ih (by omega)]
      show bfOuterStep i u U
          (cdBoor (bfLeft i u U) (bfRight i u U) j ++ List.replicate (p - j) 0) (j + 1) = _
      unfold bfOuterStep
      have hA : (cdBoor (bfLeft i u U) (bfRight i u U) j).length = j + 1 :=
        cdBoor_length _ _ _
      have hb := inner_bridge i u U (j + 1) (cdBoor (bfLeft i u U) (bfRight i u U) j)
        [] (List.replicate (p - j) 0) 0
      simp only [List.length_nil, List.nil_append] at hb
      rw [hA] at hb
      rw [List.range_eq_range', hb]
      have hq : (cdBoorInnerP (bfLeft i u U) (bfRight i u U) (j + 1)
          (cdBoor (bfLeft i u U) (bfRight i u U) j) 0 0).1.length = j + 1 := by
        rw [cdBoorInnerP_length, hA]
      have hrep : List.replicate (p - j) (0 : ℚ) = 0 :: List.replicate (p - (j + 1)) 0 := by
        have h1 : p - j = (p - (j + 1)) + 1 := by omega
        rw [h1, List.replicate_succ]
      rw [hrep]
      show ((cdBoorInnerP (bfLeft i u U) (bfRight i u U) (j + 1)
              (cdBoor (bfLeft i u U) (bfRight i u U) j) 0 0).1 ++
            0 :: List.replicate (p - (j + 1)) 0).set (j + 1)
          (cdBoorInnerP (bfLeft i u U) (bfRight i u U) (j + 1)
            (cdBoor (bfLeft i u U) (bfRight i u U) j) 0 0).2 = _
      rw [set_append_cons_of_eq _ _ _ _ _ hq.symm]
      simp [cdBoor]

/-- The imperative loop embedding of `basisFuns` computes exactly the
Cox–de Boor triangular recurrence with `left`/`right` indices
`left[j-r]` / `right[r+1]` at depth `j`. -/
theorem basisFuns_eq_rec (i : ℕ) (u : ℚ) (p : ℕ) (U : List ℚ) :
    basisFuns i u p U = cdBoor (bfLeft i u U) (bfRight i u U) p := by
  rw [basisFuns, outer_bridge i u U p p le_rfl]
  simp

/-- Each inner pass preserves the total: new values plus the final `saved`
equal the incoming `saved` plus the old values, provided no denominator it
divides by is zero. -/
theorem cdBoorInnerP_sum (L R : ℕ → ℚ) (j : ℕ) :
    ∀ (N : List ℚ) (s : ℚ) (r : ℕ),
      (∀ k, k < N.length → R (r + k + 1) + L (j - (r + k)) ≠ 0) →
      (cdBoorInnerP L R j N s r).1.sum + (cdBoorInnerP L R j N s r).2 = s + N.sum
  | [], s, r, _ => by simp [cdBoorInnerP]
  | a :: ns, s, r, h => by
      have hd : R (r + 1) + L (j - r) ≠ 0 := by
        have h0 := h 0 (by simp)
        simpa using h0
      have ih := cdBoorInnerP_sum L R j ns
        (L (j - r) * (a / (R (r + 1) + L (j - r)))) (r + 1)
        (fun k hk => by
          have hk1 := h (k + 1) (by simpa using Nat.succ_lt_succ hk)
          have e1 : r + (k + 1) = r + 1 + k := by omega
          rwa [e1] at hk1)
      have expand : R (r + 1) * (a / (R (r + 1) + L (j - r))) +
          L (j - r) * (a / (R (r + 1) + L (j - r))) = a := by
        rw [← add_mul, mul_comm]
        exact div_mul_cancel₀ a hd
      simp only [cdBoorInnerP, List.sum_cons]
      linarith [ih, expand]

/-- Each inner pass maps non-negative data to non-negative data when the
`left`/`right` values it reads are non-negative. -/
theorem cdBoorInnerP_nonneg (L R : ℕ → ℚ) (j : ℕ) :
    ∀ (N : List ℚ) (s : ℚ) (r : ℕ),
      0 ≤ s → (∀ x ∈ N, 0 ≤ x) →
      (∀ k, k < N.length → 0 ≤ R (r + k + 1)) →
      (∀ k, k < N.length → 0 ≤ L (j - (r + k))) →
      (∀ x ∈ (cdBoorInnerP L R j N s r).1, 0 ≤ x) ∧
        0 ≤ (cdBoorInnerP L R j N s r).2
  | [], s, r, hs, _, _, _ => by simpa [cdBoorInnerP] using hs
  | a :: ns, s, r, hs, hN, hR, hL => by
      have hR0 : (0 : ℚ) ≤ R (r + 1) := by simpa using hR 0 (by simp)
      have hL0 : (0 : ℚ) ≤ L (j - r) := by simpa using hL 0 (by simp)
      have htemp : (0 : ℚ) ≤ a / (R (r + 1) + L (j - r)) :=
        div_nonneg (hN a (by simp)) (add_nonneg hR0 hL0)
      have ih := cdBoorInnerP_nonneg L R j ns
        (L (j - r) * (a / (R (r + 1) + L (j - r)))) (r + 1)
        (mul_nonneg hL0 htemp)
        (fun x hx => hN x (by simp [hx]))
        (fun k hk => by
          have e1 : r + 1 + k + 1 = r + (k + 1) + 1 := by omega
          rw [e1]; exact hR (k + 1) (by simpa using Nat.succ_lt_succ hk))
        (fun k hk => by
          have e1 : j - (r + 1 + k) = j - (r + (k + 1)) := by omega
          rw [e1]; exact hL (k + 1) (by simpa using Nat.succ_lt_succ hk))
      refine ⟨?_, ih.2⟩
      intro x hx
      simp only [cdBoorInnerP, List.mem_cons] at hx
      rcases hx with hx | hx
      · subst hx
        exact add_nonneg hs (mul_nonneg hR0 htemp)
      · exact ih.1 x hx

/-- Partition of unity for the functional recurrence. -/
theorem cdBoor_sum (L R : ℕ → ℚ) (p : ℕ)
    (h : ∀ j, 1 ≤ j → j ≤ p → ∀ r, r < j → R (r + 1) + L (j - r) ≠ 0) :
    (cdBoor L R p).sum = 1 := by
  induction p with
  | zero => simp [cdBoor]
  | succ p ih =>
      have hsum := cdBoorInnerP_sum L R (p + 1) (cdBoor L R p) 0 0
        (fun k hk => by
          have hk' : k < p + 1 := by
            rwa [cdBoor_length] at hk
          have := h (p + 1) (by omega) le_rfl k hk'
          simpa using this)
      have ihp := ih (fun j h1 h2 r hr => h j h1 (by omega) r hr)
      simp only [cdBoor, List.sum_append, List.sum_cons, List.sum_nil]
      linarith [hsum, ihp]

/-- Non-negativity for the functional recurrence. -/
theorem cdBoor_nonneg (L R : ℕ → ℚ) (p : ℕ)
    (hR : ∀ k, 1 ≤ k → k ≤ p → 0 ≤ R k) (hL : ∀ k, 1 ≤ k → k ≤ p → 0 ≤ L k) :
    ∀ x ∈ cdBoor L R p, 0 ≤ x := by
  induction p with
  | zero => simp [cdBoor]
  | succ p ih =>
      have hnn := cdBoorInnerP_nonneg L R (p + 1) (cdBoor L R p) 0 0 le_rfl
        (ih (fun k h1 h2 => hR k h1 (by omega)) (fun k h1 h2 => hL k h1 (by omega)))
        (fun k hk => by
          simpa using hR (k + 1) (by omega)
            (by rw [cdBoor_length] at hk; omega))
        (fun k hk => by
          simpa using hL (p + 1 - k) (by rw [cdBoor_length] at hk; omega) (by omega))
      intro x hx
      simp only [cdBoor, List.mem_append, List.mem_singleton] at hx
      rcases hx with hx | hx
      · exact hnn.1 x hx
      · subst hx; exact hnn.2

theorem getD_mono_of_pairwise (U : List ℚ) (h : List.Pairwise (· ≤ ·) U)
    (a b : ℕ) (hab : a ≤ b) (hb : b < U.length) : U.getD a 0 ≤ U.getD b 0 := by
  rcases Nat.lt_or_ge a b with hlt | hge
  · rw [List.pairwise_iff_getElem] at h
    have hg := h a b (by omega) hb hlt
    rw [List.getD_eq_getElem?_getD, List.getD_eq_getElem?_getD,
      List.getElem?_eq_getElem (by omega), List.getElem?_eq_getElem hb]
    simpa using hg
  · have : a = b := by omega
    subst this
    exact le_refl _

/-- C2: for a valid span index `i` (`p ≤ i`, all reads in range), a
non-decreasing knot vector, `u` inside span `i`, and no degenerate
denominators at `i`, `basisFuns i u p U` returns exactly `p+1` values that
are non-negative and sum to `1`. -/
theorem basisFuns_partition_of_unity (i p : ℕ) (u : ℚ) (U : List ℚ)
    (hpi : p ≤ i) (hlen : i + p < U.length)
    (hmono : List.Pairwise (· ≤ ·) U)
    (hlo : U.getD i 0 ≤ u) (hhi : u ≤ U.getD (i + 1) 0)
    (hden : ∀ j, j ≤ p → ∀ r, r < j →
      U.getD (i + r + 1 - j) 0 < U.getD (i + r + 1) 0) :
    (basisFuns i u p U).length = p + 1 ∧
      (∀ x ∈ basisFuns i u p U, 0 ≤ x) ∧
      (basisFuns i u p U).sum = 1 := by
  rw [basisFuns_eq_rec]
  have hR : ∀ k, 1 ≤ k → k ≤ p → 0 ≤ bfRight i u U k := by
    intro k h1 h2
    have hm := getD_mono_of_pairwise U hmono (i + 1) (i + k) (by omega) (by omega)
    simp only [bfRight]
    linarith
  have hL : ∀ k, 1 ≤ k → k ≤ p → 0 ≤ bfLeft i u U k := by
    intro k h1 h2
    have hm := getD_mono_of_pairwise U hmono (i + 1 - k) i (by omega) (by omega)
    simp only [bfLeft]
    linarith
  refine ⟨cdBoor_length _ _ _, cdBoor_nonneg _ _ _ hR hL, cdBoor_sum _ _ _ ?_⟩
  intro j h1 h2 r hr
  have e1 : i + 1 - (j - r) = i + r + 1 - j := by omega
  have e2 : i + (r + 1) = i + r + 1 := by omega
  have hlt := hden j h2 r hr
  simp only [bfRight, bfLeft]
  rw [e1, e2]
  intro hc
  linarith

/-- C5: for a non-decreasing knot vector of length `(n+1) + (p+1)` and
`knot[0] ≤ u < knot[last]`, `findSpan` returns an index `i` with
`knot[i] ≤ u < knot[i+1]`; and when `u` equals `knot[last]` it returns `n`,
the last valid span. -/
theorem findSpan_containment (n p : ℕ) (u : ℚ) (U : List ℚ)
    (hlen : U.length = n + p + 2)
    (hmono : List.Pairwise (· ≤ ·) U) :
    (U.getD 0 0 ≤ u → u < U.getD (U.length - 1) 0 →
        U.getD (findSpan n p u U) 0 ≤ u ∧ u < U.getD (findSpan n p u U + 1) 0) ∧
      (u = U.getD (U.length - 1) 0 → findSpan n p u U = n) := by
  constructor
  · intro h0 hu
    have hnotle : ¬ U.getD (U.length - 1) 0 ≤ u := not_le.mpr hu
    rw [findSpan, if_neg hnotle]
    have hkpos : 0 < U.length - 1 := by
      rcases Nat.eq_zero_or_pos (U.length - 1) with h | h
      · rw [h] at hu; linarith
      · exact h
    refine ⟨findSpanScan_sat u U (U.length - 1) h0, ?_⟩
    have hlt := findSpanScan_lt u U (U.length - 1) hkpos
    rcases Nat.lt_or_ge (findSpanScan u U (U.length - 1) + 1) (U.length - 1) with hc | hc
    · by_contra hcon
      push_neg at hcon
      have := findSpanScan_max u U (U.length - 1)
        (findSpanScan u U (U.length - 1) + 1) hc hcon
      omega
    · have heq : findSpanScan u U (U.length - 1) + 1 = U.length - 1 := by omega
      rw [heq]
      exact hu
  · intro h
    rw [findSpan, if_pos (le_of_eq h.symm)]

/-- Modelled from the spec: the accumulation loop of
`NurbsCurve.prototype.curvePoint3DH` (not under src/): for
`j = 0, …, degree`, accumulate `basis[j] * weight[span-degree+j] *
point[span-degree+j]` into the numerator and `basis[j] * weight[span-degree+j]`
into the denominator.  `span - degree + j` is a JS integer that is negative or
past the end when fewer control points than the order are supplied; reading
there yields `undefined`, whose arithmetic fails (TypeError on the vector op /
NaN), modelled as `none`. -/
def curveAccum (span p : ℕ) (P : List Vec3) (W B : List ℚ) :
    List ℕ → Vec3 × ℚ → Option (Vec3 × ℚ)
  | [], acc => some acc
  | j :: js, acc =>
      let idx : ℤ := (span : ℤ) + (j : ℤ) - (p : ℤ)
      if 0 ≤ idx ∧ idx.toNat < P.length ∧ idx.toNat < W.length then
        curveAccum span p P W B js
          (Vec3.add acc.1
            (Vec3.smul (B.getD j 0 * W.getD idx.toNat 0)
              (P.getD idx.toNat ⟨0, 0, 0⟩)),
           acc.2 + B.getD j 0 * W.getD idx.toNat 0)
      else none

/-- Modelled from the spec: `NurbsCurve.prototype.curvePoint3DH` (not under
src/): find the span, compute the basis functions, run the homogeneous
weighted accumulation, and return the perspective divide
numerator / denominator. -/
def curvePoint3DH (n p : ℕ) (U : List ℚ) (P : List Vec3) (W : List ℚ)
    (u : ℚ) : Option Vec3 :=
  let span := findSpan n p u U
  let B := basisFuns span u p U
  (curveAccum span p P W B (List.range (p + 1)) ((⟨0, 0, 0⟩, 0) : Vec3 × ℚ)).map
    fun acc => Vec3.divScalar acc.1 acc.2

/-- `this.curvePoint(u)` (lines 140–150): builds the `nurb` record with
`dimension = points.length - 1`, `degree = order - 1`, the stored knots and
weights, and dispatches to `curvePoint3DH`. -/
def curvePoint (s : NurbsState) (pts : List Vec3) (u : ℚ) : Option Vec3 :=
  curvePoint3DH (pts.length - 1) (s.order - 1) s.knot pts s.weight u

/-- Modelled from the spec: a convenient vector perpendicular to `a`, for the
anti-parallel degenerate case of the shortest-arc construction ("any
perpendicular axis is valid"). -/
def perpTo (a : Vec3) : Vec3 :=
  if a.x = 0 ∧ a.y = 0 then ⟨1, 0, 0⟩ else ⟨-a.y, a.x, 0⟩

/-- The data of a shortest-arc rotation between two vectors: its axis (the
unnormalised cross product) and the dot product, which carries the angle
(`|a||b| cos θ`, with `|axis| = |a||b| sin θ`). -/
structure ShortestArcRot where
  axis : Vec3
  dotProd : ℚ
deriving DecidableEq

/-- Modelled from the spec: `x3dom.fields.Quaternion.rotateFromTo(fromVec,
toVec)` (not under src/): the standard shortest-arc construction — "cross
product for axis, dot product for angle"; if the two vectors are parallel the
identity rotation, if anti-parallel a half turn about an arbitrary
perpendicular axis. -/
def rotateFromTo (a b : Vec3) : ShortestArcRot :=
  if Vec3.cross a b = ⟨0, 0, 0⟩ then
    if 0 ≤ Vec3.dot a b then ⟨⟨0, 0, 0⟩, 1⟩ else ⟨perpTo a, -1⟩
  else ⟨Vec3.cross a b, Vec3.dot a b⟩

/-- The outcome of one `getValue` call: either a thrown JS error (or a
NaN-contaminated evaluation, see `getValueAux`) or a returned rotation. -/
inductive EvalResult where
  | thrown : JsError → EvalResult
  | value : ShortestArcRot → EvalResult
deriving DecidableEq

def EvalResult.isValue : EvalResult → Bool
  | .value _ => true
  | .thrown _ => false

/-- The state mutations `getValue` performs after reading the control points:
replace the knot vector by the derived default when its length is not
`points + order` (line 123), then replace the weights by uniform `1.0` when
their length is not `points` (line 124). -/
def getValueState (s : NurbsState) (pts : List Vec3) : NurbsState :=
  let s1 := if s.knot.length ≠ pts.length + s.order then
      { s with knot := createDefaultKnots pts.length s.order } else s
  if s1.weight.length ≠ pts.length then
    { s1 with weight := List.replicate pts.length 1 } else s1

/-- The value computation of `getValue` after the state mutations.  Note the
stale alias: line 121 captures `var knot = this._vf.knot` BEFORE
`createDefaultKnots()` replaces `this._vf.knot` with a fresh array, so
`uShift` (line 125) reads the pre-repair vector (`staleKnot`).  On an empty
stored knot vector, `knot[knot.length-1]` and `knot[0]` are `undefined` and
`uShift` is NaN, poisoning both curve samples and the returned rotation —
modelled, like the other undefined/NaN failures, as `thrown typeError`. -/
def getValueAux (s1 : NurbsState) (staleKnot : List ℚ) (pts : List Vec3)
    (u : ℚ) : EvalResult :=
  match staleKnot.get? (staleKnot.length - 1), staleKnot.get? 0 with
  | some kLast, some k0 =>
      let uShift := (kLast - k0) * fractionalShift
      match curvePoint s1 pts u, curvePoint s1 pts (u + uShift) with
      | some p0, some p1 => .value (rotateFromTo downZ (Vec3.sub p0 p1))
      | _, _ => .thrown .typeError
  | _, _ => .thrown .typeError

/-- `getValue(u)` (lines 119–128).  Dereferencing an absent control-point node
(`this._cf.controlPoint.node._vf.point`) throws before any state mutation;
otherwise the state is healed (`getValueState`) and the two curve samples are
combined into the shortest-arc rotation from `downZ` (`getValueAux`). -/
def getValue (s : NurbsState) (u : ℚ) : NurbsState × EvalResult :=
  match s.controlPoint with
  | none => (s, .thrown .typeError)
  | some pts => (getValueState s pts, getValueAux (getValueState s pts) s.knot pts u)

theorem getValueState_controlPoint (s : NurbsState) (pts : List Vec3) :
    (getValueState s pts).controlPoint = s.controlPoint := by
  simp only [getValueState]
  split <;> split <;> rfl

theorem getValueState_order (s : NurbsState) (pts : List Vec3) :
    (getValueState s pts).order = s.order := by
  simp only [getValueState]
  split <;> split <;> rfl

theorem getValueState_knot_of_ne (s : NurbsState) (pts : List Vec3)
    (h : s.knot.length ≠ pts.length + s.order) :
    (getValueState s pts).knot = createDefaultKnots pts.length s.order := by
  simp only [getValueState, if_pos h]
  split <;> rfl

theorem getValueState_knot_of_eq (s : NurbsState) (pts : List Vec3)
    (h : s.knot.length = pts.length + s.order) :
    (getValueState s pts).knot = s.knot := by
  simp only [getValueState]
  rw [show (if s.knot.length ≠ pts.length + s.order then
      { s with knot := createDefaultKnots pts.length s.order } else s) = s from
    if_neg (fun hne => hne h)]
  split <;> rfl

theorem getValueState_knot_length (s : NurbsState) (pts : List Vec3) :
    (getValueState s pts).knot.length = pts.length + s.order := by
  by_cases h : s.knot.length = pts.length + s.order
  · rw [getValueState_knot_of_eq s pts h, h]
  · rw [getValueState_knot_of_ne s pts h, createDefaultKnots_length]

theorem getValueState_weight_of_ne (s : NurbsState) (pts : List Vec3)
    (h : s.weight.length ≠ pts.length) :
    (getValueState s pts).weight = List.replicate pts.length 1 := by
  simp only [getValueState]
  split <;> simp [h]

theorem getValueState_weight_of_eq (s : NurbsState) (pts : List Vec3)
    (h : s.weight.length = pts.length) :
    (getValueState s pts).weight = s.weight := by
  simp only [getValueState]
  split <;> simp [h]

theorem getValueState_weight_length (s : NurbsState) (pts : List Vec3) :
    (getValueState s pts).weight.length = pts.length := by
  by_cases h : s.weight.length = pts.length
  · rw [getValueState_weight_of_eq s pts h, h]
  · rw [getValueState_weight_of_ne s pts h, List.length_replicate]

theorem getValueState_of_valid (s : NurbsState) (pts : List Vec3)
    (h1 : s.knot.length = pts.length + s.order)
    (h2 : s.weight.length = pts.length) : getValueState s pts = s := by
  simp [getValueState, h1, h2]

theorem getValueState_idem (s : NurbsState) (pts : List Vec3) :
    getValueState (getValueState s pts) pts = getValueState s pts :=
  getValueState_of_valid _ _
    (by rw [getValueState_knot_length, getValueState_order])
    (getValueState_weight_length s pts)

theorem getValue_fst (s : NurbsState) (u : ℚ) (pts : List Vec3)
    (h : s.controlPoint = some pts) : (getValue s u).1 = getValueState s pts := by
  simp [getValue, h]

theorem curveAccum_some (span p : ℕ) (P : List Vec3) (W B : List ℚ) :
    ∀ (js : List ℕ) (acc : Vec3 × ℚ),
      (∀ j ∈ js, 0 ≤ (span : ℤ) + (j : ℤ) - (p : ℤ) ∧
        ((span : ℤ) + (j : ℤ) - (p : ℤ)).toNat < P.length ∧
        ((span : ℤ) + (j : ℤ) - (p : ℤ)).toNat < W.length) →
      (curveAccum span p P W B js acc).isSome = true
  | [], _, _ => rfl
  | j :: js, acc, h => by
      have hj := h j (by simp)
      simp only [curveAccum]
      rw [if_pos ⟨hj.1, hj.2.1, hj.2.2⟩]
      exact curveAccum_some span p P W B js _ (fun j' hj' => h j' (by simp [hj']))

theorem curvePoint3DH_isSome (n p : ℕ) (U : List ℚ) (P : List Vec3)
    (W : List ℚ) (u : ℚ)
    (h : ∀ j ∈ List.range (p + 1),
      0 ≤ (findSpan n p u U : ℤ) + (j : ℤ) - (p : ℤ) ∧
      ((findSpan n p u U : ℤ) + (j : ℤ) - (p : ℤ)).toNat < P.length ∧
      ((findSpan n p u U : ℤ) + (j : ℤ) - (p : ℤ)).toNat < W.length) :
    (curvePoint3DH n p U P W u).isSome = true := by
  simp only [curvePoint3DH]
  have hs := curveAccum_some (findSpan n p u U) p P W
    (basisFuns (findSpan n p u U) u p U) (List.range (p + 1)) (⟨0, 0, 0⟩, 0) h
  rcases Option.isSome_iff_exists.mp hs with ⟨acc, hacc⟩
  rw [hacc]
  rfl

theorem getValueAux_isValue (s1 : NurbsState) (sk : List ℚ) (pts : List Vec3)
    (u kl k0 : ℚ)
    (h1 : sk.get? (sk.length - 1) = some kl) (h2 : sk.get? 0 = some k0)
    (h3 : (curvePoint s1 pts u).isSome = true)
    (h4 : (curvePoint s1 pts (u + (kl - k0) * fractionalShift)).isSome = true) :
    (getValueAux s1 sk pts u).isValue = true := by
  rcases Option.isSome_iff_exists.mp h3 with ⟨q0, hq0⟩
  unfold getValueAux
  split
  · rename_i kl' k0' heq1 heq2
    obtain rfl : kl' = kl := by
      have := heq1.symm.trans h1
      exact (Option.some.injEq _ _).mp this
    obtain rfl : k0' = k0 := by
      have := heq2.symm.trans h2
      exact (Option.some.injEq _ _).mp this
    rcases Option.isSome_iff_exists.mp h4 with ⟨q1, hq1⟩
    simp only [hq0, hq1]
    rfl
  · rename_i hnone
    exact (hnone kl k0 h1 h2).elim

theorem getValueAux_thrown_of_none (s1 : NurbsState) (sk : List ℚ)
    (pts : List Vec3) (u : ℚ)
    (h : ∀ v : ℚ, curvePoint s1 pts v = none) :
    getValueAux s1 sk pts u = .thrown .typeError := by
  unfold getValueAux
  split
  · rename_i kl k0 _ _
    simp [h]
  · rfl

/-- The scan returns an index at most `m` when every index above `m` in the
scanned range fails the `≤ u` test. -/
theorem findSpanScan_le (u : ℚ) (U : List ℚ) (k m : ℕ)
    (h : ∀ i, m < i → i < k → ¬ U.getD i 0 ≤ u) : findSpanScan u U k ≤ m := by
  induction k with
  | zero => simp [findSpanScan]
  | succ k ih =>
      rw [findSpanScan_succ]
      split
      · rename_i hk
        by_contra hc
        exact h k (by omega) (by omega) hk
      · exact ih (fun i h1 h2 => h i h1 (by omega))

/-- The curve evaluation fails immediately when the first accumulation index
`span - degree` is negative (as it is whenever fewer control points than the
order are supplied, since then the span is below the degree). -/
theorem curvePoint3DH_none_firstFail (n p : ℕ) (U : List ℚ) (P : List Vec3)
    (W : List ℚ) (u : ℚ)
    (h : (findSpan n p u U : ℤ) + ((0 : ℕ) : ℤ) - (p : ℤ) < 0) :
    curvePoint3DH n p U P W u = none := by
  simp only [curvePoint3DH]
  rw [List.range_succ_eq_map]
  simp only [curveAccum]
  rw [if_neg (fun hc => absurd hc.1 (not_le.mpr h))]
  rfl

/-- Control points for all the concrete test states: four points along the
Z axis. -/
def ptsLine4 : List Vec3 := [⟨0, 0, 0⟩, ⟨0, 0, 1⟩, ⟨0, 0, 2⟩, ⟨0, 0, 3⟩]

/-- A freshly constructed node state: default `order = 3`, default empty
`knot` and `weight`, with a four-point control-point source attached. -/
def stFresh : NurbsState := ⟨some ptsLine4, 3, [], []⟩

/-- Two control points with `order = 3` (fewer control points than the
order), a length-valid knot vector and matching weights. -/
def stTwoPoints : NurbsState := ⟨some [⟨0, 0, 0⟩, ⟨0, 0, 1⟩], 3, [0, 0, 1, 1, 1], [1, 1]⟩

/-- A state whose control-point SFNode is absent. -/
def stNoSource : NurbsState := ⟨none, 3, [], []⟩

/-- Four control points, `order = 3`, and a strictly decreasing stored knot
vector of the correct length `4 + 3 = 7`. -/
def stDecreasing : NurbsState := ⟨some ptsLine4, 3, [6, 5, 4, 3, 2, 1, 0], [1, 1, 1, 1]⟩

theorem stTwoPoints_curvePoint_none (v : ℚ) :
    curvePoint stTwoPoints [⟨0, 0, 0⟩, ⟨0, 0, 1⟩] v = none := by
  have hspan : findSpan 1 2 v [0, 0, 1, 1, 1] ≤ 1 := by
    rw [findSpan]
    split
    · exact le_refl 1
    · rename_i hnot
      norm_num [List.getD] at hnot
      show findSpanScan v [0, 0, 1, 1, 1] 4 ≤ 1
      refine findSpanScan_le v _ 4 1 ?_
      intro i h1 h2
      interval_cases i <;> simpa [List.getD, not_le] using hnot
  show curvePoint3DH 1 2 [0, 0, 1, 1, 1] [⟨0, 0, 0⟩, ⟨0, 0, 1⟩] [1, 1] v = none
  exact curvePoint3DH_none_firstFail 1 2 _ _ _ v (by omega)

/-- C1: evaluation of `getValue` at the failing input `stFresh` (a freshly
constructed node: empty stored knot vector, four control points, order 3,
`u = 0`).  The stale alias `var knot` is captured before the default-knot
repair, so the `uShift` read `knot[knot.length-1]`/`knot[0]` hits the empty
pre-repair array (JS: `undefined`, making `uShift` NaN and the returned
rotation NaN-contaminated; modelled as a failed read and a thrown result),
whereas the repaired knot vector actually used for the curve — as the claim
and the spec's step order require — would give
`uShift = (knot[last] - knot[0]) * 0.01 = 0.01`. -/
theorem getValue_staleKnot_uShift_bug :
    stFresh.knot.get? (stFresh.knot.length - 1) = none ∧
      (getValue stFresh 0).2 = EvalResult.thrown JsError.typeError ∧
      ((getValue stFresh 0).1.knot.getD ((getValue stFresh 0).1.knot.length - 1) 0 -
          (getValue stFresh 0).1.knot.getD 0 0) * fractionalShift = 1 / 100 := by
  refine ⟨rfl, rfl, ?_⟩
  have hk : (getValue stFresh 0).1.knot = createDefaultKnots 4 3 := by
    rw [getValue_fst stFresh 0 ptsLine4 rfl]
    exact getValueState_knot_of_ne stFresh ptsLine4 (by decide)
  rw [hk, createDefaultKnots_length]
  rw [createDefaultKnots_getD 4 3 (4 + 3 - 1) (by norm_num),
    createDefaultKnots_getD 4 3 0 (by norm_num)]
  norm_num [fractionalShift]

/-- C3 (amended): `basisFuns` computes its result by the triangular
recurrence in which, at every depth `j = 1, …, degree` and inner index
`r < j`, the update is `temp = N[r] / (right[r+1] + left[j-r])`;
`N[r] = saved + right[r+1]*temp`; `saved = left[j-r]*temp` (the `left` index
is `j - r`, the current depth minus the inner index, not `degree - r`), and
each depth ends with `N[j] = saved` — so the final depth ends with
`N[degree] = saved`. -/
theorem basisFuns_triangular_recurrence (i : ℕ) (u : ℚ) (p : ℕ) (U : List ℚ) :
    basisFuns i u p U = cdBoor (bfLeft i u U) (bfRight i u U) p :=
  basisFuns_eq_rec i u p U

/-- The inner pass of the triangular recurrence exactly as the claim words
it: the `left` array index is `degree - r`, independent of the recursion
depth `j`. -/
def claimC3InnerP (L R : ℕ → ℚ) (deg : ℕ) : List ℚ → ℚ → ℕ → List ℚ × ℚ
  | [], saved, _ => ([], saved)
  | a :: ns, saved, r =>
      let temp := a / (R (r + 1) + L (deg - r))
      let rest := claimC3InnerP L R deg ns (L (deg - r) * temp) (r + 1)
      ((saved + R (r + 1) * temp) :: rest.1, rest.2)

/-- The recurrence of the claim (see `claimC3InnerP`), iterated to the given
depth. -/
def claimC3Rec (L R : ℕ → ℚ) (deg : ℕ) : ℕ → List ℚ
  | 0 => [1]
  | j + 1 =>
      let q := claimC3InnerP L R deg (claimC3Rec L R deg j) 0 0
      q.1 ++ [q.2]

/-- `basisFuns` as described by the claim's formula (`left[degree - r]`). -/
def basisFunsClaimC3 (i : ℕ) (u : ℚ) (p : ℕ) (U : List ℚ) : List ℚ :=
  claimC3Rec (bfLeft i u U) (bfRight i u U) p p

/-- C3 counterexample: at span 3, `u = 7/2`, degree 2 and the uniform knot
vector `[0,1,2,3,4,5]`, the recurrence exactly as the claim words it
(`left[degree-r]`) yields `[1/16, 3/4, 3/16]`, while the source's `basisFuns`
(`left[j-r]`) yields `[1/8, 3/4, 1/8]`. -/
theorem basisFuns_claimC3_counterexample :
    basisFunsClaimC3 3 (7/2 : ℚ) 2 [0, 1, 2, 3, 4, 5] ≠
      basisFuns 3 (7/2 : ℚ) 2 [0, 1, 2, 3, 4, 5] := by
  rw [basisFuns_eq_rec]
  norm_num [basisFunsClaimC3, claimC3Rec, claimC3InnerP, cdBoor, cdBoorInnerP,
    bfLeft, bfRight, List.getD]

/-- C4 (amended): for every control-point count `N ≥ p` and order `p ≥ 2`,
`createDefaultKnots` produces a vector of length `N + p` whose first `p`
entries are 0, whose last `p` entries are 1, whose ramp entries at
`p ≤ k < N` are `(k-1)/(N-1)`, and which is the same on every call with the
same `(N, p)`. -/
theorem createDefaultKnots_clamped (N p : ℕ) (hp : 2 ≤ p) (hpN : p ≤ N) :
    (createDefaultKnots N p).length = N + p ∧
      createDefaultKnots N p = createDefaultKnots N p ∧
      (∀ k, k < p → (createDefaultKnots N p).getD k 0 = 0) ∧
      (∀ k, N ≤ k → k < N + p → (createDefaultKnots N p).getD k 0 = 1) ∧
      (∀ k, p ≤ k → k < N →
        (createDefaultKnots N p).getD k 0 = ((k : ℚ) - 1) / ((N : ℚ) - 1)) := by
  refine ⟨createDefaultKnots_length N p, rfl, ?_, ?_, ?_⟩
  · intro k hk
    rw [createDefaultKnots_getD N p k (by omega), if_neg (by omega), if_neg (by omega)]
  · intro k h1 h2
    rw [createDefaultKnots_getD N p k h2, if_pos h1]
  · intro k h1 h2
    rw [createDefaultKnots_getD N p k (by omega), if_neg (by omega), if_pos h1]

/-- C4 counterexample: at `N = 1 < p = 2` the claim's "first `p` entries are
0" fails — entry 1 of `createDefaultKnots 1 2 = [0, 1, 1]` is 1. -/
theorem createDefaultKnots_counterexample :
    (createDefaultKnots 1 2).getD 1 0 = 1 ∧ (1 : ℚ) ≠ 0 := by
  constructor
  · rw [createDefaultKnots_getD 1 2 1 (by norm_num), if_pos (by norm_num)]
  · norm_num

/-- C4 witness at `(N, p) = (4, 3)`. -/
theorem createDefaultKnots_clamped_witness :
    (createDefaultKnots 4 3).length = 4 + 3 ∧
      (createDefaultKnots 4 3).getD 2 0 = 0 ∧
      (createDefaultKnots 4 3).getD 3 0 = ((3 : ℚ) - 1) / ((4 : ℚ) - 1) ∧
      (createDefaultKnots 4 3).getD 6 0 = 1 := by
  have h := createDefaultKnots_clamped 4 3 (by norm_num) (by norm_num)
  exact ⟨h.1, h.2.2.1 2 (by norm_num), h.2.2.2.2 3 (by norm_num) (by norm_num),
    h.2.2.2.1 6 (by norm_num) (by norm_num)⟩

/-- C9 (amended): for degenerate counts `N ≤ 1` (order ≥ 2)
`createDefaultKnots` raises no error and performs no division at all — the
ramp loop `for (k = order; k < points; k++)` has an empty iteration range, so
its division by `points - 1` is never executed — and every entry of the
derived vector is 0 or 1 (finite; no NaN or Infinity arises). -/
theorem createDefaultKnots_degenerate (N p : ℕ) (hN : N ≤ 1) (hp : 2 ≤ p) :
    rampIndices N p = [] ∧ (∀ x ∈ createDefaultKnots N p, x = 0 ∨ x = 1) := by
  constructor
  · simp only [rampIndices]
    rw [List.filter_eq_nil_iff]
    intro a ha
    simp only [List.mem_range] at ha
    simp only [decide_eq_true_eq]
    omega
  · intro x hx
    simp only [createDefaultKnots, List.mem_map, List.mem_range] at hx
    obtain ⟨k, hk, rfl⟩ := hx
    split_ifs with h1 h2
    · right; rfl
    · omega
    · left; rfl

/-- C9 counterexample: at `N = 1`, `p = 2` the ramp loop executes no
iteration — so no division by zero occurs — and the derived knot vector is
the finite `[0, 1, 1]`. -/
theorem createDefaultKnots_no_div_by_zero :
    rampIndices 1 2 = [] ∧ createDefaultKnots 1 2 = [0, 1, 1] := by
  constructor
  · rfl
  · norm_num [createDefaultKnots, List.range_succ]

/-- C9 witness at `(N, p) = (1, 2)`. -/
theorem createDefaultKnots_degenerate_witness :
    rampIndices 1 2 = [] ∧
      ((createDefaultKnots 1 2).getD 1 0 = 0 ∨ (createDefaultKnots 1 2).getD 1 0 = 1) := by
  have h := createDefaultKnots_degenerate 1 2 (by norm_num) (by norm_num)
  have hval : createDefaultKnots 1 2 = [0, 1, 1] := by
    norm_num [createDefaultKnots, List.range_succ]
  refine ⟨h.1, h.2 _ ?_⟩
  rw [hval]
  norm_num [List.getD]

/-- C2 witness: span 2, degree 2, `u = 1/4`, the clamped knot vector
`[0, 0, 0, 1/2, 1, 1, 1]`.  (`basisFuns` there is `[1/4, 5/8, 1/8]`.) -/
theorem basisFuns_partition_of_unity_witness :
    (basisFuns 2 (1/4 : ℚ) 2 [0, 0, 0, 1/2, 1, 1, 1]).length = 2 + 1 ∧
      (basisFuns 2 (1/4 : ℚ) 2 [0, 0, 0, 1/2, 1, 1, 1]).sum = 1 ∧
      (0 : ℚ) ≤ (basisFuns 2 (1/4 : ℚ) 2 [0, 0, 0, 1/2, 1, 1, 1]).getD 1 0 := by
  have h := basisFuns_partition_of_unity 2 2 (1/4) [0, 0, 0, 1/2, 1, 1, 1]
    (by norm_num) (by norm_num)
    (by norm_num [List.pairwise_cons])
    (by norm_num [List.getD]) (by norm_num [List.getD])
    (by
      intro j hj r hr
      interval_cases j <;> interval_cases r <;> norm_num [List.getD])
  refine ⟨h.1, h.2.2, h.2.1 _ ?_⟩
  have hval : basisFuns 2 (1/4 : ℚ) 2 [0, 0, 0, 1/2, 1, 1, 1] = [1/4, 5/8, 1/8] := by
    rw [basisFuns_eq_rec]
    norm_num [cdBoor, cdBoorInnerP, bfLeft, bfRight, List.getD]
  rw [hval]
  norm_num [List.getD]

/-- C5 witness: `n = 3`, `p = 2`, `u = 1/4`, knots `[0, 0, 0, 1/2, 1, 1, 1]`
(the span found is 2). -/
theorem findSpan_containment_witness :
    ([0, 0, 0, 1/2, 1, 1, 1] : List ℚ).getD
        (findSpan 3 2 (1/4) [0, 0, 0, 1/2, 1, 1, 1]) 0 ≤ 1/4 ∧
      (1/4 : ℚ) < ([0, 0, 0, 1/2, 1, 1, 1] : List ℚ).getD
        (findSpan 3 2 (1/4) [0, 0, 0, 1/2, 1, 1, 1] + 1) 0 := by
  have h := findSpan_containment 3 2 (1/4) [0, 0, 0, 1/2, 1, 1, 1]
    (by norm_num) (by norm_num [List.pairwise_cons])
  exact h.1 (by norm_num [List.getD]) (by norm_num [List.getD])

/-- C6 (amended): the evaluator never raises an `InvalidInput` error — there
is no control-point-count validation at all — and when the control-point
source is absent it throws a TypeError (dereferencing the missing node)
before any state mutation or curve computation. -/
theorem getValue_error_behaviour (s : NurbsState) (u : ℚ) :
    (getValue s u).2 ≠ EvalResult.thrown JsError.invalidInput ∧
      (s.controlPoint = none →
        getValue s u = (s, EvalResult.thrown JsError.typeError)) := by
  constructor
  · cases h : s.controlPoint with
    | none => simp [getValue, h]
    | some pts =>
        simp only [getValue, h]
        unfold getValueAux
        split
        · rename_i kl k0 _ _
          cases hc1 : curvePoint (getValueState s pts) pts u with
          | none => simp [hc1]
          | some q0 =>
              cases hc2 : curvePoint (getValueState s pts) pts
                  (u + (kl - k0) * fractionalShift) with
              | none => simp [hc1, hc2]
              | some q1 => simp [hc1, hc2]
        · simp
  · intro h
    simp [getValue, h]

/-- C6 witness: at the absent-source state the result is a thrown TypeError,
not an InvalidInput error. -/
theorem getValue_error_behaviour_witness :
    (getValue stNoSource 0).2 ≠ EvalResult.thrown JsError.invalidInput ∧
      getValue stNoSource 0 = (stNoSource, EvalResult.thrown JsError.typeError) := by
  have h := getValue_error_behaviour stNoSource 0
  exact ⟨h.1, h.2 rfl⟩

/-- C6 counterexample: with 2 control points and order 3 (count < order) the
evaluator does not fail fast with an InvalidInput error: it heals the state,
computes `uShift`, and attempts the curve computation, which then fails on an
out-of-range control-point index (`span - degree + 0 = -1`), surfacing as a
TypeError from deep inside the evaluation — not as a fail-fast validation. -/
theorem getValue_count_lt_order_counterexample :
    (getValue stTwoPoints 0).2 = EvalResult.thrown JsError.typeError ∧
      (getValue stTwoPoints 0).2 ≠ EvalResult.thrown JsError.invalidInput := by
  have hval : (getValue stTwoPoints 0).2 =
      getValueAux (getValueState stTwoPoints [⟨0, 0, 0⟩, ⟨0, 0, 1⟩])
        stTwoPoints.knot [⟨0, 0, 0⟩, ⟨0, 0, 1⟩] 0 := rfl
  have hstate : getValueState stTwoPoints [⟨0, 0, 0⟩, ⟨0, 0, 1⟩] = stTwoPoints :=
    getValueState_of_valid _ _ (by decide) (by decide)
  rw [hval, hstate, getValueAux_thrown_of_none _ _ _ _ stTwoPoints_curvePoint_none]
  exact ⟨rfl, by simp⟩

/-- C7: on every evaluation with a present control-point source, a stored
knot vector whose length is not `points + order` is replaced wholesale by the
derived default (of length `points + order`); one of the correct length is
left unchanged; after one evaluation the stored knot vector has the correct
length, and re-evaluating with the same inputs leaves it unchanged (the
self-healing step is idempotent). -/
theorem getValue_knot_selfhealing (s : NurbsState) (u : ℚ) (pts : List Vec3)
    (h : s.controlPoint = some pts) :
    (s.knot.length ≠ pts.length + s.order →
        (getValue s u).1.knot = createDefaultKnots pts.length s.order) ∧
      (s.knot.length = pts.length + s.order → (getValue s u).1.knot = s.knot) ∧
      (getValue s u).1.knot.length = pts.length + s.order ∧
      (getValue (getValue s u).1 u).1.knot = (getValue s u).1.knot := by
  rw [getValue_fst s u pts h]
  refine ⟨getValueState_knot_of_ne s pts, getValueState_knot_of_eq s pts,
    getValueState_knot_length s pts, ?_⟩
  rw [getValue_fst _ u pts (by rw [getValueState_controlPoint, h]),
    getValueState_idem]

/-- C7 witness at the fresh default state (empty stored knot vector, four
control points, order 3). -/
theorem getValue_knot_selfhealing_witness :
    (getValue stFresh 0).1.knot = createDefaultKnots ptsLine4.length stFresh.order ∧
      (getValue stFresh 0).1.knot.length = ptsLine4.length + stFresh.order ∧
      (getValue (getValue stFresh 0).1 0).1.knot = (getValue stFresh 0).1.knot := by
  have h := getValue_knot_selfhealing stFresh 0 ptsLine4 rfl
  exact ⟨h.1 (by decide), h.2.2.1, h.2.2.2⟩

/-- C8: on every evaluation with a present control-point source, a stored
weight array whose length differs from the control-point count is replaced by
a uniform array of `1.0` of that count, and one of matching length is left
unchanged; after any evaluation the stored weight array has length equal to
the control-point count. -/
theorem getValue_weight_defaulting (s : NurbsState) (u : ℚ) (pts : List Vec3)
    (h : s.controlPoint = some pts) :
    (s.weight.length ≠ pts.length →
        (getValue s u).1.weight = List.replicate pts.length 1) ∧
      (s.weight.length = pts.length → (getValue s u).1.weight = s.weight) ∧
      (getValue s u).1.weight.length = pts.length := by
  rw [getValue_fst s u pts h]
  exact ⟨getValueState_weight_of_ne s pts, getValueState_weight_of_eq s pts,
    getValueState_weight_length s pts⟩

/-- C8 witness at the fresh default state (empty stored weight array, four
control points). -/
theorem getValue_weight_defaulting_witness :
    (getValue stFresh 0).1.weight = List.replicate ptsLine4.length 1 ∧
      (getValue stFresh 0).1.weight.length = ptsLine4.length := by
  have h := getValue_weight_defaulting stFresh 0 ptsLine4 rfl
  exact ⟨h.1 (by decide), h.2.2⟩

/-- C10: the knot-vector validity check inspects only the length: every
stored knot vector of length `points + order` is used by `getValue` exactly
as stored; in particular the strictly decreasing vector `[6,5,4,3,2,1,0]` of
the correct length 7 (four control points, order 3) is accepted at `u = 2`
without repair, replacement, or error — the evaluation returns a rotation
value. -/
theorem getValue_length_only_check :
    (∀ (s : NurbsState) (u : ℚ) (pts : List Vec3), s.controlPoint = some pts →
        s.knot.length = pts.length + s.order → (getValue s u).1.knot = s.knot) ∧
      (List.Chain' (· > ·) stDecreasing.knot ∧
        (getValue stDecreasing 2).1.knot = stDecreasing.knot ∧
        ((getValue stDecreasing 2).2).isValue = true) := by
  have hstate : getValueState stDecreasing ptsLine4 = stDecreasing :=
    getValueState_of_valid _ _ (by decide) (by decide)
  constructor
  · intro s u pts h hlen
    rw [getValue_fst s u pts h]
    exact getValueState_knot_of_eq s pts hlen
  · refine ⟨?_, ?_, ?_⟩
    · norm_num [stDecreasing, List.chain'_cons]
    · rw [getValue_fst stDecreasing 2 ptsLine4 rfl, hstate]
    · have hv : (getValue stDecreasing 2).2 =
          getValueAux stDecreasing stDecreasing.knot ptsLine4 2 := by
        have e : (getValue stDecreasing 2).2 =
            getValueAux (getValueState stDecreasing ptsLine4)
              stDecreasing.knot ptsLine4 2 := rfl
        rw [e, hstate]
      rw [hv]
      have hspan1 : findSpan 3 2 (2 : ℚ) [6, 5, 4, 3, 2, 1, 0] = 3 := by
        rw [findSpan, if_pos (by norm_num [List.getD])]
      have hspan2 : findSpan 3 2 ((2 : ℚ) + ((0 : ℚ) - 6) * fractionalShift)
          [6, 5, 4, 3, 2, 1, 0] = 3 := by
        rw [findSpan, if_pos (by norm_num [List.getD, fractionalShift])]
      apply getValueAux_isValue stDecreasing stDecreasing.knot ptsLine4 2 0 6
      · rfl
      · rfl
      · show (curvePoint3DH 3 2 [6, 5, 4, 3, 2, 1, 0] ptsLine4 [1, 1, 1, 1]
            2).isSome = true
        apply curvePoint3DH_isSome
        intro j hj
        rw [hspan1]
        simp only [List.mem_range] at hj
        interval_cases j <;> norm_num [ptsLine4]
      · show (curvePoint3DH 3 2 [6, 5, 4, 3, 2, 1, 0] ptsLine4 [1, 1, 1, 1]
            ((2 : ℚ) + ((0 : ℚ) - 6) * fractionalShift)).isSome = true
        apply curvePoint3DH_isSome
        intro j hj
        rw [hspan2]
        simp only [List.mem_range] at hj
        interval_cases j <;> norm_num [ptsLine4]

/-- C10 witness: the strictly decreasing stored knot vector (correct length)
is preserved by an evaluation at `u = 5`. -/
theorem getValue_length_only_check_witness :
    (getValue stDecreasing 5).1.knot = stDecreasing.knot :=
  (getValue_length_only_check).1 stDecreasing 5 ptsLine4 rfl (by decide)

end X3D
